import Mathlib

/-!
Shallow embedding of `src/keys-ssl.c`: a static table of RSA public key
components. Each big number is stored as a list of 32-bit limbs,
least-significant limb first, together with a `top` field counting the limbs
(the `KEY` macro sets `top = sizeof(data)/sizeof(data[0])`).
-/

namespace KeysSSL

/-- Limbs of `e_0` from `src/keys-ssl.c` (lines 3-5). -/
def e_0 : List Nat := [0x00010001]

/-- Limbs of `n_0` from `src/keys-ssl.c` (lines 7-24), least-significant
limb first, transcribed row by row. -/
def n_0 : List Nat :=
  [ 0x16a0d8e1, 0x63a27054, 0xc8ba757b, 0xdc9fca11,
    0xcbcb35e3, 0xb9c06510, 0xba941433, 0x39e3dfeb,
    0x6c1fce9d, 0x7bbae38a, 0xfefabba7, 0x205a5a73,
    0x97839a2e, 0x53ea3e5a, 0x61dc0170, 0xfec8f5b6,
    0xd29a1004, 0xefe311d8, 0xa5156bb8, 0x8c6a92d0,
    0x7a6eb5cc, 0x9067cc76, 0x0bd5b1ff, 0xd103580b,
    0x8f3a2daf, 0x4a563e84, 0x46b0943e, 0xacd7cadb,
    0xebd1e198, 0x5fabb688, 0x5916f173, 0x7e70c1d3,
    0x5d6ca84e, 0xaaa8acc8, 0xe20fd4dc, 0x1685c157,
    0xad933f64, 0xf9e9c9c7, 0xc5f59824, 0xbe6272ed,
    0x53447bd1, 0x585d9a7d, 0x5b3bc30d, 0x011a5b3f,
    0xffbbf0e9, 0xf312b966, 0x482c131b, 0x2203fb37,
    0x0dc38eab, 0x3e7c157d, 0xb39fcc8d, 0xb04de1d6,
    0x07fc0d84, 0x4d9f0137, 0xe13b5ac5, 0xb075a241,
    0x8e56e153, 0x0a9a9d48, 0xf97054eb, 0xf2cff393,
    0x376024f2, 0x2a2ead68, 0x88d35dce, 0xd6579971 ]

/-- The fields of `struct bignum_st` that the `KEY` macro initializes:
`d` (the limb array) and `top` (the limb count). -/
structure bignum_st where
  d : List Nat
  top : Nat
deriving DecidableEq

/-- `struct pubkey` from `src/keys-ssl.c` (lines 27-29). -/
structure pubkey where
  e : bignum_st
  n : bignum_st
deriving DecidableEq

/-- The `KEY(data)` macro (lines 31-34): `.d = data`,
`.top = sizeof(data)/sizeof(data[0])`, i.e. the length of the array. -/
def KEY (data : List Nat) : bignum_st :=
  { d := data, top := data.length }

/-- The `KEYS(e,n)` macro (line 36): `{ KEY(e), KEY(n) }`. -/
def KEYS (e n : List Nat) : pubkey :=
  { e := KEY e, n := KEY n }

/-- `static struct pubkey keys[] = { KEYS(e_0, n_0) }` (lines 38-40). -/
def keys : List pubkey := [KEYS e_0 n_0]

/-- Decoded integer of a limb sequence: value = Σ limbs[i] * 2^(32*i),
least-significant limb first (spec §3, BigNumber). -/
def decode : List Nat → Nat
  | [] => 0
  | l :: ls => l + 2 ^ 32 * decode ls

/-- Re-encoding of an integer into `k` little-endian 32-bit limbs
(spec §4.1, encoding rule). -/
def encode (v : Nat) : Nat → List Nat
  | 0 => []
  | k + 1 => (v % 2 ^ 32) :: encode (v / 2 ^ 32) k

/-- Error kind of the key-table contract (spec §7). -/
inductive KeyTableError where
  | IndexOutOfRange
deriving DecidableEq

/-- Modelled from the spec: `count()` of §4.1 is not in `src/` (the source
holds only the static table); per the spec it returns the number of
entries and always succeeds. -/
def count : Nat := keys.length

/-- Modelled from the spec: `get(index)` of §4.1 is not in `src/` (the
source holds only the static table); per the spec it returns the key at
the given zero-based position of table `t` and fails with
`IndexOutOfRange` when the index is negative or ≥ table length, with no
side effects. -/
def getFrom (t : List pubkey) (i : Int) : Except KeyTableError pubkey :=
  if h : 0 ≤ i ∧ i.toNat < t.length then
    Except.ok (t.get ⟨i.toNat, h.2⟩)
  else
    Except.error KeyTableError.IndexOutOfRange

/-- `get` of the spec contract, applied to the declared table. -/
def get (i : Int) : Except KeyTableError pubkey := getFrom keys i

/-- The two operations of the public contract (spec §4.1). -/
inductive TableOp where
  | getOp (i : Int)
  | countOp
deriving DecidableEq

/-- One call of the contract against table state `t`: the observable result
together with the table state after the call. Per the spec both `get` and
`count` only read the table. -/
def step (t : List pubkey) : TableOp → (Except KeyTableError pubkey ⊕ Nat) × List pubkey
  | TableOp.getOp i => (Sum.inl (getFrom t i), t)
  | TableOp.countOp => (Sum.inr t.length, t)

/-- Runs a sequence of contract calls, threading the table state through
each call, and returns the final table state. -/
def runOps (t : List pubkey) : List TableOp → List pubkey
  | [] => t
  | op :: ops => runOps (step t op).2 ops

instance {ε α : Type} [DecidableEq ε] [DecidableEq α] : DecidableEq (Except ε α)
  | Except.ok a, Except.ok b => decidable_of_iff (a = b) (by simp)
  | Except.ok _, Except.error _ => isFalse (by simp)
  | Except.error _, Except.ok _ => isFalse (by simp)
  | Except.error a, Except.error b => decidable_of_iff (a = b) (by simp)

end KeysSSL

namespace KeysSSL

/-- C1: for every index `i` with `0 ≤ i < count`, `get i` succeeds and
returns the PublicKey at zero-based position `i` of the declared table,
and for every `i < 0` or `i ≥ count`, `get i` fails with the
`IndexOutOfRange` error kind. `get` is a pure function of its index, so
it has no side effects. -/
theorem C1_get_contract (i : Int) :
    (∀ h0 : 0 ≤ i, ∀ h1 : i < (count : Int),
        get i = Except.ok (keys.get ⟨i.toNat, show i.toNat < count by omega⟩)) ∧
    ((i < 0 ∨ (count : Int) ≤ i) →
        get i = Except.error KeyTableError.IndexOutOfRange) := by
  have hc : count = keys.length := rfl
  constructor
  · intro h0 h1
    have h2 : 0 ≤ i ∧ i.toNat < keys.length := ⟨h0, by omega⟩
    unfold get getFrom
    rw [dif_pos h2]
  · intro h
    unfold get getFrom
    rw [dif_neg]
    rintro ⟨h0, h2⟩
    omega

/-- Witness for C1 at the concrete indices 0 and 1. -/
theorem C1_get_contract_witness :
    get 0 = Except.ok (keys.get ⟨0, by decide⟩) ∧
    get 1 = Except.error KeyTableError.IndexOutOfRange :=
  ⟨(C1_get_contract 0).1 (by decide) (by decide),
   (C1_get_contract 1).2 (Or.inr (by decide))⟩

/-- C2: for every BigNumber in the table (exponent and modulus), decoding
its limb sequence into an integer and re-encoding that integer with the
same 32-bit limb width, the same limb count and little-endian limb order
reproduces the original limb sequence exactly. -/
theorem C2_roundtrip (pk : pubkey) (hpk : pk ∈ keys) :
    encode (decode pk.e.d) pk.e.d.length = pk.e.d ∧
    encode (decode pk.n.d) pk.n.d.length = pk.n.d := by
  simp only [keys, List.mem_singleton] at hpk
  subst hpk
  exact ⟨by decide, by decide⟩

/-- Witness for C2 at the single table entry. -/
theorem C2_roundtrip_witness :
    KEYS e_0 n_0 ∈ keys ∧
    (encode (decode (KEYS e_0 n_0).e.d) (KEYS e_0 n_0).e.d.length = (KEYS e_0 n_0).e.d ∧
     encode (decode (KEYS e_0 n_0).n.d) (KEYS e_0 n_0).n.d.length = (KEYS e_0 n_0).n.d) :=
  ⟨by simp [keys], C2_roundtrip (KEYS e_0 n_0) (by simp [keys])⟩

/-- C3: the table has exactly one entry: `count` returns 1, `get 0`
returns that single entry, and `get 1` fails with `IndexOutOfRange`. -/
theorem C3_single_entry :
    count = 1 ∧ get 0 = Except.ok (KEYS e_0 n_0) ∧
    get 1 = Except.error KeyTableError.IndexOutOfRange :=
  ⟨rfl, rfl, rfl⟩

/-- C4: the exponent of the single entry has the one-limb sequence
`[0x00010001]`, and decoding it as a little-endian base-2^32 integer
yields exactly 65537. -/
theorem C4_exponent_is_65537 :
    e_0 = [0x00010001] ∧ (keys.get ⟨0, by decide⟩).e.d = [0x00010001] ∧
    decode e_0 = 65537 :=
  ⟨rfl, rfl, rfl⟩

set_option maxRecDepth 10000 in
/-- C5: the modulus has exactly 64 limbs; its most significant limb is
`0xd6579971`, which pins the decoded integer between
`0xd6579971 * 2^(32*63)` (inclusive) and `(0xd6579971+1) * 2^(32*63)`
(exclusive); since `2^31 ≤ 0xd6579971 < 2^32`, the bit length is exactly
2048 = 64 * 32, i.e. `2^2047 ≤ decode n_0 < 2^2048`. -/
theorem C5_modulus_bitlength :
    n_0.length = 64 ∧ n_0.getLast? = some 0xd6579971 ∧
    0xd6579971 * 2 ^ (32 * 63) ≤ decode n_0 ∧
    decode n_0 < (0xd6579971 + 1) * 2 ^ (32 * 63) ∧
    2 ^ 2047 ≤ decode n_0 ∧ decode n_0 < 2 ^ 2048 :=
  ⟨rfl, rfl, by decide, by decide, by decide, by decide⟩

end KeysSSL

namespace KeysSSL

/-- C6: for every BigNumber record in the table the stored `top` field
equals the length of its limb sequence and the sequence is non-empty;
consequently, for every valid index, `get` returns a PublicKey whose
exponent and modulus each have a non-empty limb sequence. -/
theorem C6_invariants :
    (∀ pk ∈ keys, pk.e.top = pk.e.d.length ∧ pk.e.d ≠ [] ∧
                  pk.n.top = pk.n.d.length ∧ pk.n.d ≠ []) ∧
    (∀ i : Int, 0 ≤ i → i < (count : Int) →
      ∀ pk, get i = Except.ok pk → pk.e.d ≠ [] ∧ pk.n.d ≠ []) := by
  constructor
  · intro pk hpk
    simp only [keys, List.mem_singleton] at hpk
    subst hpk
    exact ⟨rfl, by decide, rfl, by decide⟩
  · intro i h0 h1 pk hpk
    have hc : (count : Int) = 1 := rfl
    have hi : i = 0 := by omega
    subst hi
    rw [show get 0 = Except.ok (KEYS e_0 n_0) from rfl] at hpk
    injection hpk with h
    subst h
    exact ⟨by decide, by decide⟩

/-- Witness for C6 at the single table entry and index 0. -/
theorem C6_invariants_witness :
    ((KEYS e_0 n_0).e.top = (KEYS e_0 n_0).e.d.length ∧ (KEYS e_0 n_0).e.d ≠ [] ∧
     (KEYS e_0 n_0).n.top = (KEYS e_0 n_0).n.d.length ∧ (KEYS e_0 n_0).n.d ≠ []) ∧
    ((KEYS e_0 n_0).e.d ≠ [] ∧ (KEYS e_0 n_0).n.d ≠ []) :=
  ⟨C6_invariants.1 (KEYS e_0 n_0) (by simp [keys]),
   C6_invariants.2 0 (by decide) (by decide) (KEYS e_0 n_0) rfl⟩

/-- C7: the table preserves the declared insertion order: it has one
entry, and the entry at position 0 pairs the BigNumber built from `e_0`
(as exponent) with the BigNumber built from `n_0` (as modulus), each with
`top` equal to its declared array length. -/
theorem C7_declared_order :
    count = 1 ∧
    keys[0]? = some { e := { d := e_0, top := e_0.length },
                      n := { d := n_0, top := n_0.length } } :=
  ⟨rfl, rfl⟩

/-- C8: the table is immutable: running any sequence of `get` and `count`
calls leaves the table state equal to `keys`, which is exactly the
declared literal data, every limb value included. -/
theorem C8_immutable (ops : List TableOp) :
    runOps keys ops = keys ∧
    runOps keys ops = [{ e := { d := e_0, top := e_0.length },
                         n := { d := n_0, top := n_0.length } }] := by
  have h : ∀ (ops2 : List TableOp) (t : List pubkey), runOps t ops2 = t := by
    intro ops2
    induction ops2 with
    | nil => intro t; rfl
    | cons op rest ih =>
        intro t
        cases op <;> simpa only [runOps, step] using ih t
  exact ⟨h ops keys, (h ops keys).trans rfl⟩

/-- C9: every limb of `e_0` and of `n_0` is an unsigned 32-bit value
(strictly below 2^32), and the sequences are least-significant limb
first: the low 32 bits of each decoded integer equal the first listed
limb. -/
theorem C9_limb_width :
    ((e_0 ++ n_0).all fun l => decide (l < 2 ^ 32)) = true ∧
    decode e_0 % 2 ^ 32 = 0x00010001 ∧
    decode n_0 % 2 ^ 32 = 0x16a0d8e1 :=
  ⟨by decide, by decide, by decide⟩

set_option maxRecDepth 10000 in
/-- C10: the most significant (last) limb of each BigNumber is non-zero
(`e_0` ends in 0x00010001, `n_0` ends in 0xd6579971), so each
representation is normalized: the decoded value needs at least
`length` limbs (it is ≥ 2^(32*(length-1))) and fits in `length` limbs
(it is < 2^(32*length)), so the stored limb count is minimal. -/
theorem C10_normalized :
    e_0.getLast? = some 0x00010001 ∧ n_0.getLast? = some 0xd6579971 ∧
    2 ^ (32 * (e_0.length - 1)) ≤ decode e_0 ∧ decode e_0 < 2 ^ (32 * e_0.length) ∧
    2 ^ (32 * (n_0.length - 1)) ≤ decode n_0 ∧ decode n_0 < 2 ^ (32 * n_0.length) :=
  ⟨rfl, rfl, by decide, by decide, by decide, by decide⟩

end KeysSSL
